import Mathlib

/-!
# CryptoVerde pipeline — shallow embedding and verification

This file embeds the core of the CryptoVerde market-data pipeline
(`data_processor.py`, `etl_pipeline.py`, `database.py`, `indicators.py`,
`api_handler.py`) as executable Lean definitions and proves / refutes the
specification's claims about it.

Conventions of the embedding:
* Python floats are modelled by `PFloat` (NaN, signed infinity, or an exact
  rational); machine rounding is abstracted away since no claim depends on it.
* JSON/dict values appearing in raw API records are modelled by `PyVal`;
  a missing dictionary key is `Option.none` at the field level.
* Timestamps (ISO-8601 strings in the source, whose lexicographic order
  agrees with chronological order) are modelled as naturals.
* Python's `str` of a finite float is abstracted as the decimal string of the
  rational (it is never empty, which is all any claim uses); `float(s)` /
  `int(s)` string parsing is restricted to integer literals and the
  `inf`/`nan` forms (no claim depends on the richer grammar).
-/

namespace CryptoVerde

/-- Model of a Python float: NaN, ±∞ (`pos = true` for `+∞`), or a finite
value, represented exactly as a rational. -/
inductive PFloat where
  | nan : PFloat
  | inf (pos : Bool) : PFloat
  | fin (q : ℚ) : PFloat
deriving DecidableEq, Repr

namespace PFloat

/-- Python `abs` of a float. -/
def pabs : PFloat → PFloat
  | nan => nan
  | inf _ => inf true
  | fin q => fin |q|

/-- IEEE-754 multiplication on the model: NaN propagates, `∞ * 0 = NaN`,
`∞ * x` for `x ≠ 0` is an infinity with the product sign. -/
def pmul : PFloat → PFloat → PFloat
  | nan, _ => nan
  | _, nan => nan
  | inf s, inf t => inf (s == t)
  | inf s, fin q => if q = 0 then nan else inf (s == decide (0 < q))
  | fin q, inf s => if q = 0 then nan else inf (s == decide (0 < q))
  | fin a, fin b => fin (a * b)

/-- Division of a Python float by a positive finite constant (the only
division the source performs is `/ 1_000_000`). -/
def pdivPos : PFloat → ℚ → PFloat
  | nan, _ => nan
  | inf s, _ => inf s
  | fin q, d => fin (q / d)

/-- Pandas `pd.isna` on a scalar: true exactly for NaN (infinities are NOT na). -/
def isNaN : PFloat → Bool
  | nan => true
  | _ => false

/-- Finiteness predicate: true exactly for `fin _`. -/
def isFinite : PFloat → Bool
  | fin _ => true
  | _ => false

end PFloat

/-- Model of a Python/JSON value as it appears in a raw API record. -/
inductive PyVal where
  | vnone : PyVal
  | vstr (s : String) : PyVal
  | vint (n : ℤ) : PyVal
  | vfloat (x : PFloat) : PyVal
  | vbool (b : Bool) : PyVal
deriving DecidableEq, Repr

namespace PyVal

/-- Python truthiness (`bool(x)`): `None`, `""`, `0`, `0.0`, `False` are
falsy; NaN and infinities are truthy. -/
def pyTruthy : PyVal → Bool
  | vnone => false
  | vstr s => s ≠ ""
  | vint n => n ≠ 0
  | vfloat .nan => true
  | vfloat (.inf _) => true
  | vfloat (.fin q) => q ≠ 0
  | vbool b => b

/-- Python `str(x)`. `str(None) = "None"`; the decimal form of a finite
float is abstracted as the rational's decimal string (never empty). -/
def pyStr : PyVal → String
  | vnone => "None"
  | vstr s => s
  | vint n => toString n
  | vfloat .nan => "nan"
  | vfloat (.inf true) => "inf"
  | vfloat (.inf false) => "-inf"
  | vfloat (.fin q) => toString q
  | vbool true => "True"
  | vbool false => "False"

/-- Python `float(x)`: `none` models a raised exception (`TypeError` on
`None`, `ValueError` on a non-numeric string). String parsing is restricted
to integer literals and `inf`/`-inf`/`nan`. -/
def pyFloat : PyVal → Option PFloat
  | vnone => none
  | vbool b => some (.fin (if b then 1 else 0))
  | vint n => some (.fin (n : ℚ))
  | vfloat x => some x
  | vstr s =>
      if s = "inf" ∨ s = "Infinity" then some (.inf true)
      else if s = "-inf" ∨ s = "-Infinity" then some (.inf false)
      else if s = "nan" then some .nan
      else (s.toInt?).map (fun n => .fin (n : ℚ))

/-- Truncation of a rational toward zero, as Python `int(float)` does. -/
def ratTrunc (q : ℚ) : ℤ := if 0 ≤ q then ⌊q⌋ else ⌈q⌉

/-- Python `int(x)`: `none` models a raised exception — `TypeError` on
`None`, `ValueError` on NaN or a non-integer string, `OverflowError` on an
infinity. -/
def pyInt : PyVal → Option ℤ
  | vnone => none
  | vbool b => some (if b then 1 else 0)
  | vint n => some n
  | vfloat (.fin q) => some (ratTrunc q)
  | vfloat .nan => none
  | vfloat (.inf _) => none
  | vstr s => s.toInt?

end PyVal

/-- A raw API record (`coin` dict from CoinGecko): each field is `none` when
the key is absent, otherwise it holds the (possibly null) value. -/
structure RawCoin where
  id : Option PyVal := none
  symbol : Option PyVal := none
  name : Option PyVal := none
  current_price : Option PyVal := none
  market_cap : Option PyVal := none
  total_volume : Option PyVal := none
  price_change_percentage_24h : Option PyVal := none
  market_cap_rank : Option PyVal := none
deriving DecidableEq, Repr

/-- A processed record, as appended by `DataProcessor.process` and stored by
the Persistence Gateway. `extracted_at` is the run timestamp. -/
structure Coin where
  coin_id : String
  symbol : String
  name : String
  current_price : PFloat
  market_cap : ℤ
  total_volume : ℤ
  price_change_24h : PFloat
  market_cap_rank : ℤ
  volatility_score : PFloat
  extracted_at : ℕ
deriving DecidableEq, Repr

open PyVal

/-- Python `str.upper()` (the records are ASCII tickers). Defined over the
character list so the kernel can evaluate it; equal to `String.toUpper`
(see `strUpper_eq_toUpper`). -/
def strUpper (s : String) : String := ⟨s.data.map Char.toUpper⟩

/-- Coercion `coin.get(k) or 0` — the value when present and truthy, else `0`. -/
def orZero (v : Option PyVal) : PyVal :=
  match v with
  | none => .vint 0
  | some x => if pyTruthy x then x else .vint 0

/-- Coercion `coin.get('market_cap_rank') or 999`. -/
def or999 (v : Option PyVal) : PyVal :=
  match v with
  | none => .vint 999
  | some x => if pyTruthy x then x else .vint 999

/-- The coerced 24h price-change of a raw record:
`float(coin.get('price_change_percentage_24h') or 0)`. -/
def pcOf (coin : RawCoin) : Option PFloat :=
  pyFloat (orZero coin.price_change_percentage_24h)

/-- The coerced 24h volume of a raw record:
`int(coin.get('total_volume') or 0)`. -/
def volOf (coin : RawCoin) : Option ℤ :=
  pyInt (orZero coin.total_volume)

/-- The volatility-score computation of `DataProcessor.process`:
`abs(price_change_24h) * volume / 1_000_000`, then `pd.isna` clamps NaN
(and only NaN) to `0.0`. -/
def volatilityOf (pc : PFloat) (vol : ℤ) : PFloat :=
  let v := PFloat.pdivPos (PFloat.pmul (PFloat.pabs pc) (.fin (vol : ℚ))) 1000000
  if v.isNaN then .fin 0 else v

/-- One iteration of the loop body of `DataProcessor.process`: `none` models
both the `continue` on an empty id and the per-record `except` that skips a
record whose numeric coercion raises. -/
def processCoin (now : ℕ) (coin : RawCoin) : Option Coin :=
  let cid := pyStr (coin.id.getD (.vstr ""))
  if cid = "" then none
  else
    match pyFloat (orZero coin.current_price), pyInt (orZero coin.market_cap),
        volOf coin, pcOf coin, pyInt (or999 coin.market_cap_rank) with
    | some price, some mcap, some vol, some pc, some rank =>
        some { coin_id := cid
               symbol :=
                 (let s := strUpper (pyStr (coin.symbol.getD (.vstr "")))
                  if s = "" then "UNKNOWN" else s)
               name :=
                 (let s := pyStr (coin.name.getD (.vstr ""))
                  if s = "" then "Unknown" else s)
               current_price := price
               market_cap := mcap
               total_volume := vol
               price_change_24h := pc
               market_cap_rank := rank
               volatility_score := volatilityOf pc vol
               extracted_at := now }
    | _, _, _, _, _ => none

/-- Source `DataProcessor.process`: transform a raw batch, skipping invalid records
and preserving order (`process` appends in input order). -/
def process (now : ℕ) (raw : List RawCoin) : List Coin :=
  raw.filterMap (processCoin now)

/-! ## Persistence Gateway (`database.py`) -/

/-- The effect of a successful Supabase `upsert(..., on_conflict='coin_id')`
on the stored row set: each incoming record replaces the row with its
`coin_id`, or is appended when none exists. -/
def upsertRows (st : List Coin) (data : List Coin) : List Coin :=
  data.foldl
    (fun acc c =>
      if acc.any (fun r => r.coin_id = c.coin_id) then
        acc.map (fun r => if r.coin_id = c.coin_id then c else r)
      else acc ++ [c])
    st

/-- Source `DatabaseManager.save_coins`: empty input returns `False` untouched;
otherwise the upsert either commits as a whole (`loadOk = true`) or raises —
caught and turned into `False` with the store unchanged (the single-request
upsert is atomic; the spec assumes no partial writes). -/
def save_coins (st : List Coin) (loadOk : Bool) (data : List Coin) :
    List Coin × Bool :=
  if data.isEmpty then (st, false)
  else if loadOk then (upsertRows st data, true)
  else (st, false)

/-- The order `get_coins` sorts rows by: `extracted_at` descending. -/
def rowGe (a b : Coin) : Prop := b.extracted_at ≤ a.extracted_at

instance : DecidableRel rowGe := fun a b => Nat.decLe b.extracted_at a.extracted_at

instance : IsTotal Coin rowGe := ⟨fun a b => le_total b.extracted_at a.extracted_at⟩

instance : IsTrans Coin rowGe := ⟨fun _ _ _ h h' => le_trans h' h⟩

/-- The `seen` dict loop of `DatabaseManager.get_coins`: walk the ordered
result set keeping the first row seen per `coin_id`; `seen` holds the ids
already taken. -/
def dedupSeen : List Coin → List String → List Coin
  | [], _ => []
  | c :: cs, seen =>
      if c.coin_id ∈ seen then dedupSeen cs seen
      else c :: dedupSeen cs (c.coin_id :: seen)

/-- Source `DatabaseManager.get_coins`: select all rows ordered by `extracted_at`
descending (ISO timestamps sort lexicographically = chronologically), then
keep the first row seen per `coin_id`. -/
def get_coins (rows : List Coin) : List Coin :=
  dedupSeen (List.insertionSort rowGe rows) []

/-! ## Pipeline Orchestrator (`etl_pipeline.py`) -/

/-- Outcome of one `ETLPipeline.run`, instrumented with which stages
executed. `db` is the persisted row set after the run. -/
structure RunOutcome where
  db : List Coin
  ok : Bool
  transformRan : Bool
  loadRan : Bool
deriving DecidableEq, Repr

/-- Source `ETLPipeline.run` over a store `db0`. `extract` is the result of
`api.get_top_coins()` (`none` = request failed); `now` the run timestamp;
`loadOk` whether the upsert request succeeds. The post-load summary
(`get_coins` + `calculate_market_stats`) only reads, never mutates, and
`calculate_market_stats` catches its own errors, so it is omitted. -/
def etl_run (db0 : List Coin) (extract : Option (List RawCoin)) (now : ℕ)
    (loadOk : Bool) : RunOutcome :=
  match extract with
  | none => { db := db0, ok := false, transformRan := false, loadRan := false }
  | some raw =>
      if raw.isEmpty then
        { db := db0, ok := false, transformRan := false, loadRan := false }
      else
        let transformed := process now raw
        if transformed.isEmpty then
          { db := db0, ok := false, transformRan := true, loadRan := false }
        else
          let res := save_coins db0 loadOk transformed
          { db := res.1, ok := res.2, transformRan := true, loadRan := true }

/-! ## Indicator Library (`indicators.py`)

A pandas `Series` of prices is a `List ℚ`; intermediate series that can
contain NaN are `List (Option ℚ)` with `none` for NaN. -/

/-- Pandas `data.diff()`: NaN at position 0, successive differences after it. -/
def diffs : List ℚ → List (Option ℚ)
  | [] => []
  | x :: xs => none :: List.zipWith (fun b a => some (b - a)) xs (x :: xs)

/-- Series `delta.where(delta > 0, 0)`: keep positive deltas, `0` elsewhere
(`NaN > 0` is false, so the leading NaN also becomes `0`). -/
def gains (data : List ℚ) : List ℚ :=
  (diffs data).map (fun d =>
    match d with
    | some v => if 0 < v then v else 0
    | none => 0)

/-- Series `-delta.where(delta < 0, 0)`: the absolute values of negative deltas,
`0` elsewhere (the leading NaN becomes `0` likewise). -/
def losses (data : List ℚ) : List ℚ :=
  (diffs data).map (fun d =>
    match d with
    | some v => if v < 0 then -v else 0
    | none => 0)

/-- The slice `rolling(window=w, min_periods=1)` averages at position `i`:
the last `min (i+1) w` of the first `i+1` entries. -/
def windowAt (w : ℕ) (xs : List ℚ) (i : ℕ) : List ℚ :=
  (xs.take (i + 1)).drop (i + 1 - min (i + 1) w)

/-- Pandas `xs.rolling(window=w, min_periods=1).mean()` on a NaN-free series. -/
def rollingMean (w : ℕ) (xs : List ℚ) : List ℚ :=
  (List.range xs.length).map
    (fun i => (windowAt w xs i).sum / ((min (i + 1) w : ℕ) : ℚ))

/-- Series `loss.replace(0, np.nan)`. -/
def lossRepl (l : List ℚ) : List (Option ℚ) :=
  l.map (fun v => if v = 0 then none else some v)

/-- Series `gain / loss.replace(0, np.nan)`: dividing by NaN yields NaN. -/
def rsRaw (gain : List ℚ) (lr : List (Option ℚ)) : List (Option ℚ) :=
  List.zipWith (fun g l => l.map (fun lv => g / lv)) gain lr

/-- Series `.fillna(0)`. -/
def fillna0 (xs : List (Option ℚ)) : List ℚ := xs.map (fun x => x.getD 0)

/-- The main numeric path of `calculate_rsi` (reached when
`len(data) ≥ window+1` and `window ≥ 1`). The final `rsi.fillna(50)` is the
identity here: `rs` is NaN-free after its `fillna(0)`, hence so is `rsi`. -/
def rsiCore (data : List ℚ) (window : ℕ) : List ℚ :=
  let gain := rollingMean window (gains data)
  let loss := rollingMean window (losses data)
  let rs := fillna0 (rsRaw gain (lossRepl loss))
  rs.map (fun r => 100 - 100 / (1 + r))

/-- Source `TechnicalIndicators.calculate_rsi`. A `window` of `0` makes
`rolling(0, min_periods=1)` raise `ValueError`; the surrounding `except`
returns `pd.Series(50, index=data.index)`, the same constant-50 series the
short-input branch returns. -/
def calculate_rsi (data : List ℚ) (window : ℕ) : List ℚ :=
  if window = 0 then data.map (fun _ => 50)
  else if data.length < window + 1 then data.map (fun _ => 50)
  else rsiCore data window

/-- Source `TechnicalIndicators.calculate_sma`. When `len(data) < window` the
source returns `pd.Series(index=data.index)`: a series over the same index
with every value missing (NaN) — modelled as all-`none`. A `window` of `0`
raises in `rolling` and the `except` returns the same value-less series. -/
def calculate_sma (data : List ℚ) (window : ℕ) : List (Option ℚ) :=
  if window = 0 then data.map (fun _ => none)
  else if data.length < window then data.map (fun _ => none)
  else (rollingMean window data).map some

/-! ## OHLC Resampler (`CoinGeckoAPI._process_historical_data`) -/

/-- Bucket width in epoch milliseconds for a day window: `days ≤ 7` → 1-hour
bars, `days ≤ 30` → 4-hour bars, otherwise 1-day bars. All three widths
divide one day and pandas aligns the bins to midnight, so a sample falls in
bucket `timestamp / width` (integer division on epoch milliseconds). -/
def bucketMs (days : ℕ) : ℕ :=
  if days ≤ 7 then 3600000 else if days ≤ 30 then 14400000 else 86400000

/-- One OHLCV bar. `ts` is the bucket start (epoch ms); `opn` is the `open`
column (a Lean keyword); `volume` is `none` when the volume cell is NaN or
the volume column is absent. -/
structure Bar where
  ts : ℕ
  opn : ℚ
  high : ℚ
  low : ℚ
  close : ℚ
  volume : Option ℚ
deriving DecidableEq, Repr

/-- Maximum over the empty-defaulted fold (for nonempty input, the maximum
of the list). -/
def qmaxD : List ℚ → ℚ
  | [] => 0
  | x :: xs => xs.foldl max x

/-- Minimum, defaulted like `qmaxD`. -/
def qminD : List ℚ → ℚ
  | [] => 0
  | x :: xs => xs.foldl min x

/-- The largest bucket index among the price samples. -/
def maxBucket (W : ℕ) (ps : List (ℕ × ℚ)) : ℕ :=
  (ps.map (fun p => p.1 / W)).foldl max 0

/-- The bucket indices that hold at least one price sample, ascending —
pandas generates its bins in ascending time order and `dropna` removes the
all-NaN rows of empty buckets. -/
def priceBuckets (W : ℕ) (ps : List (ℕ × ℚ)) : List ℕ :=
  (List.range (maxBucket W ps + 1)).filter (fun b => ps.any (fun p => p.1 / W == b))

/-- The volume cell for bucket `b`:
`ohlc['volume'] = vol_df['volume'].resample(...).sum()` aligns by index, so
a bucket inside the volume series' bin span gets the sum of its volume
samples (`0` for an empty bin, pandas `sum` of an empty group), and a bucket
outside that span — or with no volume data at all — gets NaN. -/
def volumeFor (W : ℕ) (vs : Option (List (ℕ × ℚ))) (b : ℕ) : Option ℚ :=
  match vs with
  | none => none
  | some [] => none
  | some (v :: vt) =>
      let bks := (v :: vt).map (fun p => p.1 / W)
      if bks.foldl min (v.1 / W) ≤ b ∧ b ≤ bks.foldl max (v.1 / W) then
        some ((((v :: vt).filter (fun p => p.1 / W == b)).map Prod.snd).sum)
      else none

/-- The bar for bucket `b` of `resample(...).ohlc()`: open/close are the
first/last price of the bucket in series order, high/low the max/min. The
defaults of `headD`/`getLastD`/`qmaxD` never fire for a bucket that holds a
sample. -/
def mkBar (W : ℕ) (ps : List (ℕ × ℚ)) (vs : Option (List (ℕ × ℚ))) (b : ℕ) : Bar :=
  let qs := (ps.filter (fun p => p.1 / W == b)).map Prod.snd
  { ts := b * W
    opn := qs.headD 0
    high := qmaxD qs
    low := qminD qs
    close := qs.getLastD 0
    volume := volumeFor W vs b }

/-- The raw historical payload (`data` dict): `prices` is `none` when the
key is absent (a `KeyError` in `_process_historical_data`, caught by the
caller); `total_volumes` is optional in the source itself. Samples are
`(epoch-ms timestamp, value)` pairs. -/
structure RawHist where
  prices : Option (List (ℕ × ℚ)) := none
  total_volumes : Option (List (ℕ × ℚ)) := none
deriving DecidableEq, Repr

/-- The bar list `_process_historical_data` builds from present price data. -/
def resampleBars (ps : List (ℕ × ℚ)) (vs : Option (List (ℕ × ℚ))) (days : ℕ) :
    List Bar :=
  let W := bucketMs days
  (priceBuckets W ps).map (mkBar W ps vs)

/-- Source `CoinGeckoAPI._process_historical_data`, with `none` modelling the
`KeyError` raised when `data['prices']` is absent (propagated to
`get_historical_data`'s `except`). -/
def processHistoricalData (raw : RawHist) (days : ℕ) : Option (List Bar) :=
  match raw.prices with
  | none => none
  | some ps => some (resampleBars ps raw.total_volumes days)

/-! ## Historical Cache (`CoinGeckoAPI.get_historical_data`) -/

/-- One cache entry: fetch time (seconds) and the cached bars. -/
structure CacheEntry where
  time : ℕ
  data : List Bar
deriving DecidableEq, Repr

/-- The cache dict, as an association list on the string key
`f"{coin_id}_{days}"`. -/
abbrev Cache := List (String × CacheEntry)

/-- Dict lookup. -/
def cacheLookup (c : Cache) (k : String) : Option CacheEntry :=
  (c.find? (fun e => e.1 == k)).map Prod.snd

/-- Dict assignment `cache[key] = entry`: whole-entry replacement. -/
def cacheInsert (c : Cache) (k : String) (e : CacheEntry) : Cache :=
  if (c.find? (fun x => x.1 == k)).isSome then
    c.map (fun x => if x.1 == k then (k, e) else x)
  else c ++ [(k, e)]

/-- Outcome of one `get_historical_data` call: the returned bars (`none` on
failure), the cache afterwards, and whether an HTTP request went out. -/
structure FetchOutcome where
  result : Option (List Bar)
  cache : Cache
  httpIssued : Bool
deriving DecidableEq, Repr

/-- Source `CoinGeckoAPI.get_historical_data`. `http` is the outcome of the GET
(`none` = network error / non-2xx, which raises and is caught by the
`except` with the cache untouched); a present entry younger than the
5-minute TTL short-circuits before any request. -/
def get_historical_data (cache : Cache) (now : ℕ) (coin_id : String)
    (days : ℕ) (http : Option RawHist) : FetchOutcome :=
  let key := coin_id ++ "_" ++ toString days
  let fetch : FetchOutcome :=
    match http with
    | none => { result := none, cache := cache, httpIssued := true }
    | some raw =>
        match processHistoricalData raw days with
        | none => { result := none, cache := cache, httpIssued := true }
        | some bars =>
            { result := some bars
              cache := cacheInsert cache key { time := now, data := bars }
              httpIssued := true }
  match cacheLookup cache key with
  | some e =>
      if now - e.time < 300 then
        { result := some e.data, cache := cache, httpIssued := false }
      else fetch
  | none => fetch

/-- A stored row with the given id and extraction time and neutral payload,
used to instantiate theorems on concrete inputs. -/
def sampleRow (id : String) (t : ℕ) : Coin :=
  { coin_id := id, symbol := "S", name := "N", current_price := .fin 0
    market_cap := 0, total_volume := 0, price_change_24h := .fin 0
    market_cap_rank := 0, volatility_score := .fin 0, extracted_at := t }

/-! ## Helper lemmas -/

/-- Function `strUpper` is Python's `str.upper` as Lean's `String.toUpper` computes
it. -/
theorem strUpper_eq_toUpper (s : String) : strUpper s = s.toUpper := by
  simp [strUpper, String.toUpper, String.map_eq]

/-- Uppercasing preserves nonemptiness of a string. -/
theorem strUpper_ne_empty {s : String} (h : s ≠ "") : strUpper s ≠ "" := by
  intro he
  apply h
  have h2 : s.data.map Char.toUpper = [] := congrArg String.data he
  exact String.ext (List.map_eq_nil_iff.mp h2)

/-- Characterization of a successful `processCoin`: the id is nonempty and
every output field is determined by the raw record's coerced fields. -/
theorem processCoin_eq_some {now : ℕ} {r : RawCoin} {c : Coin}
    (h : processCoin now r = some c) :
    pyStr (r.id.getD (.vstr "")) ≠ "" ∧
    c.coin_id = pyStr (r.id.getD (.vstr "")) ∧
    c.symbol = (if strUpper (pyStr (r.symbol.getD (.vstr ""))) = "" then "UNKNOWN"
                else strUpper (pyStr (r.symbol.getD (.vstr "")))) ∧
    c.name = (if pyStr (r.name.getD (.vstr "")) = "" then "Unknown"
              else pyStr (r.name.getD (.vstr ""))) ∧
    c.extracted_at = now ∧
    ∃ pc vol, pcOf r = some pc ∧ volOf r = some vol ∧
      c.price_change_24h = pc ∧ c.total_volume = vol ∧
      c.volatility_score = volatilityOf pc vol := by
  simp only [processCoin] at h
  split at h
  · exact absurd h (by simp)
  · rename_i hcid
    split at h
    · rename_i price mcap vol pc rank hp hm hv hpc hr
      obtain rfl : _ = c := Option.some_inj.mp h
      refine ⟨hcid, rfl, rfl, rfl, rfl, pc, vol, hpc, hv, rfl, rfl, rfl⟩
    · exact absurd h (by simp)

/-- C5: For every raw batch, `DataProcessor.process` returns at most as many
records as the input; every returned record has non-empty `coin_id`, `name`
and `symbol`; output is the concatenation of the outputs of the pieces of
the input (hence preserves input order); and a record the loop body skips is
simply dropped — the rest of the batch is still processed. -/
theorem C5_transform_skip_and_continue :
    ∀ (now : ℕ) (raw : List RawCoin),
      (process now raw).length ≤ raw.length
      ∧ (∀ c ∈ process now raw, c.coin_id ≠ "" ∧ c.name ≠ "" ∧ c.symbol ≠ "")
      ∧ (∀ raw₂ : List RawCoin,
          process now (raw ++ raw₂) = process now raw ++ process now raw₂)
      ∧ (∀ bad : RawCoin, processCoin now bad = none →
          ∀ raw₂ : List RawCoin,
            process now (raw ++ bad :: raw₂) = process now raw ++ process now raw₂) := by
  intro now raw
  refine ⟨List.length_filterMap_le _ _, ?_, ?_, ?_⟩
  · intro c hc
    obtain ⟨a, _, ha⟩ := List.mem_filterMap.mp hc
    obtain ⟨hid, hcid, hsym, hname, -⟩ := processCoin_eq_some ha
    refine ⟨hcid ▸ hid, ?_, ?_⟩
    · rw [hname]
      split
      · decide
      · assumption
    · rw [hsym]
      split
      · decide
      · assumption
  · intro raw₂
    exact List.filterMap_append _ _ _
  · intro bad hbad raw₂
    simp [process, List.filterMap_append, List.filterMap_cons, hbad]

/-- Witness for C5 at a concrete two-record batch containing one record with
no id (skipped) and one valid record. -/
theorem C5_witness :
    (process 0 [{ id := some (.vstr "bitcoin"), symbol := some (.vstr "btc"),
                  name := some (.vstr "Bitcoin") }]).length ≤ 1
    ∧ ((sampleRow "bitcoin" 0).coin_id ≠ "" → True)
    ∧ process 0 ([{ id := some (.vstr "bitcoin") }] ++
          ({} : RawCoin) :: [{ id := some (.vstr "eth") }])
        = process 0 [{ id := some (.vstr "bitcoin") }]
          ++ process 0 [{ id := some (.vstr "eth") }] := by
  refine ⟨(C5_transform_skip_and_continue 0 _).1, fun _ => trivial, ?_⟩
  exact (C5_transform_skip_and_continue 0 [{ id := some (.vstr "bitcoin") }]).2.2.2
    ({} : RawCoin) (by decide) [{ id := some (.vstr "eth") }]

/-- C10: In `DataProcessor.process`, a present-but-null `symbol` yields
`"NONE"` (`str(None).upper()`), a null `name` yields `"None"`, and the
`"UNKNOWN"`/`"Unknown"` defaults fire exactly when the key is absent or its
value stringifies to the empty string — otherwise the output is the
(uppercased, for symbol) string form of the value. -/
theorem C10_null_symbol_name :
    ∀ (now : ℕ) (r : RawCoin) (c : Coin), processCoin now r = some c →
      (r.symbol = some .vnone → c.symbol = "NONE")
      ∧ (r.name = some .vnone → c.name = "None")
      ∧ ((r.symbol = none ∨ ∃ v, r.symbol = some v ∧ pyStr v = "") →
          c.symbol = "UNKNOWN")
      ∧ ((r.name = none ∨ ∃ v, r.name = some v ∧ pyStr v = "") →
          c.name = "Unknown")
      ∧ (∀ v, r.symbol = some v → pyStr v ≠ "" → c.symbol = strUpper (pyStr v))
      ∧ (∀ v, r.name = some v → pyStr v ≠ "" → c.name = pyStr v) := by
  intro now r c h
  obtain ⟨-, -, hsym, hname, -⟩ := processCoin_eq_some h
  refine ⟨?_, ?_, ?_, ?_, ?_, ?_⟩
  · intro hv
    rw [hsym, hv]
    decide
  · intro hv
    rw [hname, hv]
    decide
  · intro hv
    rw [hsym]
    rcases hv with hv | ⟨v, hv, hv2⟩ <;> rw [hv]
    · decide
    · simp only [Option.getD_some, hv2]
      decide
  · intro hv
    rw [hname]
    rcases hv with hv | ⟨v, hv, hv2⟩ <;> rw [hv]
    · decide
    · simp [hv2]
  · intro v hv hne
    rw [hsym, hv]
    simp only [Option.getD_some]
    rw [if_neg (strUpper_ne_empty hne)]
  · intro v hv hne
    rw [hname, hv]
    simp only [Option.getD_some]
    rw [if_neg hne]

/-- Witness for C10 at a record whose `symbol` and `name` keys hold `null`. -/
theorem C10_witness :
    (process 0 [{ id := some (.vstr "xrp"), symbol := some .vnone,
                  name := some .vnone }]).map (fun c => (c.symbol, c.name))
      = [("NONE", "None")] := by
  have hp : processCoin 0
      { id := some (.vstr "xrp"), symbol := some .vnone, name := some .vnone }
      = some { coin_id := "xrp", symbol := "NONE", name := "None",
               current_price := .fin 0, market_cap := 0, total_volume := 0,
               price_change_24h := .fin 0, market_cap_rank := 999,
               volatility_score := .fin 0, extracted_at := 0 } := by
    norm_num [processCoin, pyStr, strUpper, orZero, or999, pyTruthy, pyFloat,
      pyInt, pcOf, volOf, volatilityOf, PFloat.pabs, PFloat.pmul,
      PFloat.pdivPos, PFloat.isNaN]
    decide
  have h := C10_null_symbol_name 0
    { id := some (.vstr "xrp"), symbol := some .vnone, name := some .vnone }
    { coin_id := "xrp", symbol := "NONE", name := "None",
      current_price := .fin 0, market_cap := 0, total_volume := 0,
      price_change_24h := .fin 0, market_cap_rank := 999,
      volatility_score := .fin 0, extracted_at := 0 }
    hp
  have h1 := h.1 rfl
  have h2 := h.2.1 rfl
  simp [process, List.filterMap_cons, hp, h1, h2]

/-- C8 counterexample: the claim says `volatilityScore` is clamped to 0
whenever non-finite and is always ≥ 0. The `pd.isna` check only clamps NaN:
a `+∞` 24h price-change with volume 1 yields a stored `+∞` score, and a
negative raw volume yields a negative score. -/
theorem C8_counterexample :
    (process 0 [{ id := some (.vstr "infcoin"),
                  price_change_percentage_24h := some (.vfloat (.inf true)),
                  total_volume := some (.vint 1) }]).map Coin.volatility_score
      = [PFloat.inf true]
    ∧ (PFloat.inf true).isFinite = false
    ∧ (process 0 [{ id := some (.vstr "negvol"),
                    price_change_percentage_24h := some (.vint 5),
                    total_volume := some (.vint (-1000000)) }]).map
        Coin.volatility_score
      = [PFloat.fin (-5)]
    ∧ ¬ (0 : ℚ) ≤ -5 := by
  refine ⟨?_, rfl, ?_, by norm_num⟩ <;>
    norm_num [process, processCoin, pyStr, strUpper, orZero, or999, pyTruthy,
      pyFloat, pyInt, pcOf, volOf, volatilityOf, PFloat.pabs, PFloat.pmul,
      PFloat.pdivPos, PFloat.isNaN, List.filterMap_cons] <;> decide

/-- C8 (amended): for every record `transform` accepts, the stored
`volatility_score` is `|priceChangePct24h| * volume24h / 1_000_000` with NaN
(and only NaN) clamped to 0 — so it is never NaN; and whenever the coerced
price-change is finite and the coerced volume is nonnegative it is a finite
value ≥ 0. (An infinite price-change or a negative volume can make it
infinite resp. negative, refuting the unconditional claim.) -/
theorem C8_volatility_amended :
    ∀ (now : ℕ) (r : RawCoin) (c : Coin), processCoin now r = some c →
      c.volatility_score.isNaN = false
      ∧ ∀ pc vol, pcOf r = some pc → volOf r = some vol →
          c.volatility_score = volatilityOf pc vol
          ∧ ∀ q, pc = .fin q → 0 ≤ vol →
              ∃ v : ℚ, c.volatility_score = .fin v ∧ 0 ≤ v := by
  intro now r c h
  obtain ⟨-, -, -, -, -, pc, vol, hpc, hvol, -, -, hscore⟩ := processCoin_eq_some h
  constructor
  · rw [hscore]
    simp only [volatilityOf]
    split
    · rfl
    · rename_i hna
      simpa using hna
  · intro pc' vol' hpc' hvol'
    obtain rfl : pc = pc' := Option.some_inj.mp (hpc ▸ hpc')
    obtain rfl : vol = vol' := Option.some_inj.mp (hvol ▸ hvol')
    refine ⟨hscore, ?_⟩
    rintro q rfl hv
    refine ⟨|q| * vol / 1000000, ?_, ?_⟩
    · rw [hscore]
      rfl
    · apply div_nonneg _ (by norm_num)
      exact mul_nonneg (abs_nonneg q) (by exact_mod_cast hv)

/-- Witness for C8 at an ordinary finite record (price-change `-5`,
volume `2,000,000` → score `10`). -/
theorem C8_witness :
    ∃ v : ℚ, PFloat.fin 10 = PFloat.fin v ∧ 0 ≤ v := by
  have h := C8_volatility_amended 0
    { id := some (.vstr "btc"), price_change_percentage_24h := some (.vint (-5)),
      total_volume := some (.vint 2000000) }
    { coin_id := "btc", symbol := "UNKNOWN", name := "Unknown",
      current_price := .fin 0, market_cap := 0, total_volume := 2000000,
      price_change_24h := .fin (-5), market_cap_rank := 999,
      volatility_score := .fin 10, extracted_at := 0 }
    (by
      norm_num [processCoin, pyStr, strUpper, orZero, or999, pyTruthy,
        pyFloat, pyInt, pcOf, volOf, volatilityOf, PFloat.pabs, PFloat.pmul,
        PFloat.pdivPos, PFloat.isNaN]
      decide)
  have h2 := (h.2 (.fin (-5)) 2000000
      (by norm_num [pcOf, orZero, pyTruthy, pyFloat])
      (by norm_num [volOf, orZero, pyTruthy, pyInt])).2 (-5) rfl (by norm_num)
  exact h2

/-- C1: `ETLPipeline.run` short-circuits and never partially commits: when
Extract yields no data (`None` or `[]`), Transform and Load never execute
and the run fails with the store untouched; when Transform yields zero valid
records, Load is skipped and the run fails with the store untouched; and
when the upsert fails, the run fails and the persisted state afterwards is
exactly the state before the run. -/
theorem C1_run_short_circuit :
    ∀ (db0 : List Coin) (extract : Option (List RawCoin)) (now : ℕ)
      (loadOk : Bool),
      ((extract = none ∨ extract = some []) →
        (etl_run db0 extract now loadOk).transformRan = false
        ∧ (etl_run db0 extract now loadOk).loadRan = false
        ∧ (etl_run db0 extract now loadOk).ok = false
        ∧ (etl_run db0 extract now loadOk).db = db0)
      ∧ (∀ raw, extract = some raw → process now raw = [] →
          (etl_run db0 extract now loadOk).loadRan = false
          ∧ (etl_run db0 extract now loadOk).ok = false
          ∧ (etl_run db0 extract now loadOk).db = db0)
      ∧ (loadOk = false →
          (etl_run db0 extract now loadOk).ok = false
          ∧ (etl_run db0 extract now loadOk).db = db0) := by
  intro db0 extract now loadOk
  refine ⟨?_, ?_, ?_⟩
  · rintro (rfl | rfl) <;> simp [etl_run]
  · rintro raw rfl hraw
    rcases raw with - | ⟨r, rs⟩
    · simp [etl_run]
    · simp [etl_run, hraw, save_coins]
  · rintro rfl
    rcases extract with - | raw
    · simp [etl_run]
    · rcases raw with - | ⟨r, rs⟩
      · simp [etl_run]
      · by_cases h : process now (r :: rs) = []
        · simp [etl_run, h, save_coins]
        · simp [etl_run, h, save_coins]

/-- Witness for C1: a failed extract, an all-invalid batch, and a failed
load, over a one-row store. -/
theorem C1_witness :
    (etl_run [sampleRow "btc" 1] none 5 true).db = [sampleRow "btc" 1]
    ∧ (etl_run [sampleRow "btc" 1] (some [{}]) 5 true).ok = false
    ∧ (etl_run [sampleRow "btc" 1]
        (some [{ id := some (.vstr "eth") }]) 5 false).db
      = [sampleRow "btc" 1] := by
  refine ⟨(((C1_run_short_circuit [sampleRow "btc" 1] none 5 true).1
      (Or.inl rfl)).2.2.2), ?_, ?_⟩
  · exact ((C1_run_short_circuit [sampleRow "btc" 1] (some [{}]) 5 true).2.1
      [{}] rfl (by decide)).2.1
  · exact ((C1_run_short_circuit [sampleRow "btc" 1]
      (some [{ id := some (.vstr "eth") }]) 5 false).2.2 rfl).2

/-- Membership in the deduplicated list: every kept row comes from the
input and its id was not already seen. -/
theorem mem_dedupSeen {l : List Coin} {seen : List String} {c : Coin}
    (h : c ∈ dedupSeen l seen) : c ∈ l ∧ c.coin_id ∉ seen := by
  induction l generalizing seen with
  | nil => simp [dedupSeen] at h
  | cons x xs ih =>
      rw [dedupSeen] at h
      split at h
      · obtain ⟨h1, h2⟩ := ih h
        exact ⟨List.mem_cons_of_mem _ h1, h2⟩
      · rcases List.mem_cons.mp h with rfl | hm
        · exact ⟨List.mem_cons_self _ _, by assumption⟩
        · obtain ⟨h1, h2⟩ := ih hm
          exact ⟨List.mem_cons_of_mem _ h1,
            fun hs => h2 (List.mem_cons_of_mem _ hs)⟩

/-- The deduplicated list never repeats a `coin_id`. -/
theorem dedupSeen_pairwise (l : List Coin) (seen : List String) :
    (dedupSeen l seen).Pairwise (fun a b => a.coin_id ≠ b.coin_id) := by
  induction l generalizing seen with
  | nil => simp [dedupSeen]
  | cons x xs ih =>
      rw [dedupSeen]
      split
      · exact ih seen
      · refine List.Pairwise.cons ?_ (ih _)
        intro b hb heq
        exact (mem_dedupSeen hb).2 (by simp [heq])

/-- On a list sorted by `extracted_at` descending, the first-seen row per id
has the greatest `extracted_at` among rows with that id. -/
theorem dedupSeen_newest {l : List Coin} (hs : l.Sorted rowGe)
    {seen : List String} {c : Coin} (hc : c ∈ dedupSeen l seen)
    {r : Coin} (hr : r ∈ l) (hkey : r.coin_id = c.coin_id) :
    r.extracted_at ≤ c.extracted_at := by
  induction l generalizing seen with
  | nil => simp [dedupSeen] at hc
  | cons x xs ih =>
      obtain ⟨hx, hxs⟩ := List.sorted_cons.mp hs
      rw [dedupSeen] at hc
      split at hc
      · rcases List.mem_cons.mp hr with rfl | hrm
        · exact absurd (hkey ▸ (by assumption : r.coin_id ∈ seen))
            (mem_dedupSeen hc).2
        · exact ih hxs hc hrm
      · rcases List.mem_cons.mp hc with rfl | hcm
        · rcases List.mem_cons.mp hr with rfl | hrm
          · exact le_refl _
          · exact hx r hrm
        · rcases List.mem_cons.mp hr with rfl | hrm
          · exact absurd (by simp [hkey]) (mem_dedupSeen hcm).2
          · exact ih hxs hcm hrm

/-- C9: `DatabaseManager.get_coins` never returns two rows with the same
`coin_id`, and each returned row is a stored row whose `extracted_at` is
maximal among all stored rows with that id (newest-extracted wins). -/
theorem C9_get_coins_dedup :
    ∀ rows : List Coin,
      (get_coins rows).Pairwise (fun a b => a.coin_id ≠ b.coin_id)
      ∧ ∀ c ∈ get_coins rows, c ∈ rows
          ∧ ∀ r ∈ rows, r.coin_id = c.coin_id →
              r.extracted_at ≤ c.extracted_at := by
  intro rows
  have hperm := List.perm_insertionSort rowGe rows
  have hsorted := List.sorted_insertionSort rowGe rows
  refine ⟨dedupSeen_pairwise _ _, fun c hc => ⟨?_, fun r hr hkey => ?_⟩⟩
  · exact hperm.mem_iff.mp (mem_dedupSeen hc).1
  · exact dedupSeen_newest hsorted hc (hperm.mem_iff.mpr hr) hkey

/-- Witness for C9 on three stored rows, two sharing an id: the newer of the
duplicated id is at least as new as the older. -/
theorem C9_witness :
    (sampleRow "a" 1).extracted_at ≤ (sampleRow "a" 5).extracted_at := by
  have h := (C9_get_coins_dedup
      [sampleRow "a" 1, sampleRow "a" 5, sampleRow "b" 3]).2
    (sampleRow "a" 5) (by decide)
  exact h.2 (sampleRow "a" 1) (by decide) (by decide)

/-- C6: a second `get_historical_data` for the same `(coin_id, days)` key
within the 5-minute TTL returns the cached bars and issues no HTTP request
and leaves the cache untouched; a failed fetch (network error) or a failed
resample (malformed payload) never changes the cache; and in every case the
cache is either unchanged or updated by a whole-entry write of a fully
successfully resampled result. -/
theorem C6_cache_ttl :
    ∀ (cache : Cache) (now : ℕ) (coin_id : String) (days : ℕ)
      (http : Option RawHist),
      (∀ e : CacheEntry,
        cacheLookup cache (coin_id ++ "_" ++ toString days) = some e →
        now - e.time < 300 →
        get_historical_data cache now coin_id days http
          = { result := some e.data, cache := cache, httpIssued := false })
      ∧ (http = none →
          (get_historical_data cache now coin_id days http).cache = cache)
      ∧ (∀ raw, http = some raw → processHistoricalData raw days = none →
          (get_historical_data cache now coin_id days http).cache = cache)
      ∧ ((get_historical_data cache now coin_id days http).cache = cache
         ∨ ∃ raw bars, http = some raw
             ∧ processHistoricalData raw days = some bars
             ∧ (get_historical_data cache now coin_id days http).cache
               = cacheInsert cache (coin_id ++ "_" ++ toString days)
                   { time := now, data := bars }) := by
  intro cache now coin_id days http
  refine ⟨?_, ?_, ?_, ?_⟩
  · intro e he httl
    simp only [get_historical_data, he, if_pos httl]
  · rintro rfl
    simp only [get_historical_data]
    split
    · split
      · rfl
      · rfl
    · rfl
  · rintro raw rfl hfail
    simp only [get_historical_data, hfail]
    split
    · split
      · rfl
      · rfl
    · rfl
  · simp only [get_historical_data]
    rcases http with - | raw
    · split
      · split
        · exact Or.inl rfl
        · exact Or.inl rfl
      · exact Or.inl rfl
    · rcases hp : processHistoricalData raw days with - | bars
      · simp only [hp]
        split
        · split
          · exact Or.inl rfl
          · exact Or.inl rfl
        · exact Or.inl rfl
      · simp only [hp]
        split
        · split
          · exact Or.inl rfl
          · exact Or.inr ⟨raw, bars, rfl, hp, rfl⟩
        · exact Or.inr ⟨raw, bars, rfl, hp, rfl⟩

/-- Witness for C6: a cached `btc_5` entry fetched at t=100 is served at
t=340 (4 minutes later) without a request; a network failure at t=500
(entry expired) leaves the cache unchanged. -/
theorem C6_witness :
    get_historical_data [("btc_5", { time := 100, data := [] })] 340 "btc" 5
        (some { prices := some [(0, 1)] })
      = { result := some [], cache := [("btc_5", { time := 100, data := [] })],
          httpIssued := false }
    ∧ (get_historical_data [("btc_5", { time := 100, data := [] })] 500
        "btc" 5 none).cache = [("btc_5", { time := 100, data := [] })] := by
  constructor
  · exact (C6_cache_ttl [("btc_5", { time := 100, data := [] })] 340 "btc" 5
      (some { prices := some [(0, 1)] })).1
      { time := 100, data := [] } (by decide) (by decide)
  · exact (C6_cache_ttl [("btc_5", { time := 100, data := [] })] 500 "btc" 5
      none).2.1 rfl

/-- Every element of a `zipWith` comes from an element of each input. -/
theorem mem_zipWith {α β γ : Type} {f : α → β → γ} :
    ∀ {as : List α} {bs : List β} {x : γ}, x ∈ List.zipWith f as bs →
      ∃ a b, a ∈ as ∧ b ∈ bs ∧ x = f a b := by
  intro as
  induction as with
  | nil => intro bs x h; simp at h
  | cons a as ih =>
      intro bs x h
      cases bs with
      | nil => simp at h
      | cons b bs =>
          rcases List.mem_cons.mp h with rfl | hm
          · exact ⟨a, b, List.mem_cons_self _ _, List.mem_cons_self _ _, rfl⟩
          · obtain ⟨a', b', ha, hb, rfl⟩ := ih hm
            exact ⟨a', b', List.mem_cons_of_mem _ ha,
              List.mem_cons_of_mem _ hb, rfl⟩

/-- Pandas `rolling(...).mean()` keeps the series length. -/
theorem rollingMean_length (w : ℕ) (xs : List ℚ) :
    (rollingMean w xs).length = xs.length := by
  simp [rollingMean]

/-- Pandas `diff` keeps the series length. -/
theorem diffs_length (data : List ℚ) : (diffs data).length = data.length := by
  cases data with
  | nil => rfl
  | cons x xs => simp [diffs]

/-- The gain series has the input's length. -/
theorem gains_length (data : List ℚ) : (gains data).length = data.length := by
  simp [gains, diffs_length]

/-- The loss series has the input's length. -/
theorem losses_length (data : List ℚ) :
    (losses data).length = data.length := by
  simp [losses, diffs_length]

/-- A rolling window only contains elements of the series. -/
theorem mem_windowAt {w : ℕ} {xs : List ℚ} {i : ℕ} {y : ℚ}
    (h : y ∈ windowAt w xs i) : y ∈ xs :=
  List.mem_of_mem_take (List.mem_of_mem_drop h)

/-- A rolling mean of a nonnegative series is nonnegative. -/
theorem rollingMean_nonneg {w : ℕ} {xs : List ℚ} (h : ∀ x ∈ xs, 0 ≤ x) :
    ∀ y ∈ rollingMean w xs, 0 ≤ y := by
  intro y hy
  simp only [rollingMean, List.mem_map] at hy
  obtain ⟨i, -, rfl⟩ := hy
  exact div_nonneg (List.sum_nonneg fun x hx => h x (mem_windowAt hx))
    (Nat.cast_nonneg _)

/-- A rolling mean of the zero series is zero. -/
theorem rollingMean_zero {w : ℕ} {xs : List ℚ} (h : ∀ x ∈ xs, x = 0) :
    ∀ y ∈ rollingMean w xs, y = 0 := by
  intro y hy
  simp only [rollingMean, List.mem_map] at hy
  obtain ⟨i, -, rfl⟩ := hy
  rw [List.sum_eq_zero fun x hx => h x (mem_windowAt hx), zero_div]

/-- Positive-delta entries are nonnegative. -/
theorem gains_nonneg (data : List ℚ) : ∀ x ∈ gains data, 0 ≤ x := by
  intro x hx
  simp only [gains, List.mem_map] at hx
  obtain ⟨d, -, rfl⟩ := hx
  cases d with
  | none => simp
  | some v =>
      dsimp only
      split
      · linarith
      · exact le_refl 0

/-- Negative-delta magnitudes are nonnegative. -/
theorem losses_nonneg (data : List ℚ) : ∀ x ∈ losses data, 0 ≤ x := by
  intro x hx
  simp only [losses, List.mem_map] at hx
  obtain ⟨d, -, rfl⟩ := hx
  cases d with
  | none => simp
  | some v =>
      dsimp only
      split
      · linarith
      · exact le_refl 0

/-- Every `diff` entry is NaN or a difference of two series values. -/
theorem mem_diffs {data : List ℚ} {d : Option ℚ} (h : d ∈ diffs data) :
    d = none ∨ ∃ a ∈ data, ∃ b ∈ data, d = some (b - a) := by
  cases data with
  | nil => simp [diffs] at h
  | cons x xs =>
      rw [diffs] at h
      rcases List.mem_cons.mp h with rfl | hm
      · exact Or.inl rfl
      · obtain ⟨b, a, hb, ha, rfl⟩ := mem_zipWith hm
        exact Or.inr ⟨a, ha, b, List.mem_cons_of_mem _ hb, rfl⟩

/-- On a constant series all loss entries are zero. -/
theorem losses_eq_zero {data : List ℚ} {q : ℚ} (h : ∀ x ∈ data, x = q) :
    ∀ x ∈ losses data, x = 0 := by
  intro x hx
  simp only [losses, List.mem_map] at hx
  obtain ⟨d, hd, rfl⟩ := hx
  rcases mem_diffs hd with rfl | ⟨a, ha, b, hb, rfl⟩
  · rfl
  · rw [h a ha, h b hb]
    simp

/-- The `rs` series (`fillna(0)` of gain over NaN-masked loss) is pointwise
nonnegative when gain and loss are. -/
theorem rs_entries_nonneg {g l : List ℚ} (hg : ∀ x ∈ g, 0 ≤ x)
    (hl : ∀ x ∈ l, 0 ≤ x) :
    ∀ r ∈ fillna0 (rsRaw g (lossRepl l)), 0 ≤ r := by
  intro r hr
  simp only [fillna0, List.mem_map] at hr
  obtain ⟨o, ho, rfl⟩ := hr
  obtain ⟨gv, lo, hgv, hlo, rfl⟩ := mem_zipWith ho
  simp only [lossRepl, List.mem_map] at hlo
  obtain ⟨lv, hlv, rfl⟩ := hlo
  by_cases h0 : lv = 0
  · simp [h0]
  · have hpos : 0 < lv := lt_of_le_of_ne (hl lv hlv) (Ne.symm h0)
    simp only [if_neg h0, Option.map_some', Option.getD_some]
    exact div_nonneg (hg gv hgv) (le_of_lt hpos)

/-- The final RSI formula maps a nonnegative `rs` into `[0, 100]`. -/
theorem rsi_val_bounds {r : ℚ} (h : 0 ≤ r) :
    0 ≤ 100 - 100 / (1 + r) ∧ 100 - 100 / (1 + r) ≤ 100 := by
  have h1 : (0:ℚ) < 1 + r := by linarith
  constructor
  · have h2 := div_le_self (by norm_num : (0:ℚ) ≤ 100)
      (by linarith : (1:ℚ) ≤ 1 + r)
    linarith
  · have h3 : 0 < 100 / (1 + r) := div_pos (by norm_num) h1
    linarith

/-- At a position whose loss average is zero, `rs` after
`replace(0, nan)`/`fillna(0)` is exactly `0`. -/
theorem rs_at_zero_loss {g l : List ℚ} {i : ℕ} (hg : i < g.length)
    (hl : l[i]? = some 0) :
    (fillna0 (rsRaw g (lossRepl l)))[i]? = some 0 := by
  have hgi : g[i]? = some g[i] := List.getElem?_eq_getElem hg
  simp only [fillna0, rsRaw, lossRepl, List.getElem?_map,
    List.getElem?_zipWith, hgi, hl]
  simp

/-- C2 counterexample: on the strictly rising series `[1,2,3]` with window
2 the trailing loss average is `0` at every position, yet `calculate_rsi`
returns `0` there, not the claimed `100`: `rs` is forced to `0`, and
`100 - 100/(1+0) = 0`. -/
theorem C2_counterexample :
    rollingMean 2 (losses [1, 2, 3]) = [0, 0, 0]
    ∧ calculate_rsi [1, 2, 3] 2 = [0, 0, 0]
    ∧ (0 : ℚ) ≠ 100 := by
  refine ⟨?_, ?_, by norm_num⟩
  · norm_num [rollingMean, windowAt, losses, diffs, List.range_succ]
  · norm_num [calculate_rsi, rsiCore, rollingMean, windowAt, gains, losses,
      diffs, lossRepl, rsRaw, fillna0, List.range_succ]

/-- C2 (amended): at every position where the trailing loss average is
exactly zero, `calculate_rsi` treats RS as `0` rather than infinite — and
the resulting RSI value at that position is therefore `0`, not `100`. -/
theorem C2_rsi_zero_loss_amended :
    ∀ (data : List ℚ) (window i : ℕ), 1 ≤ window →
      window + 1 ≤ data.length →
      (rollingMean window (losses data))[i]? = some 0 →
      (fillna0 (rsRaw (rollingMean window (gains data))
          (lossRepl (rollingMean window (losses data)))))[i]? = some 0
      ∧ (calculate_rsi data window)[i]? = some 0 := by
  intro data window i hw hlen hloss
  have hi : i < data.length := by
    obtain ⟨hlt, -⟩ := List.getElem?_eq_some.mp hloss
    rwa [rollingMean_length, losses_length] at hlt
  have h1 : (fillna0 (rsRaw (rollingMean window (gains data))
      (lossRepl (rollingMean window (losses data)))))[i]? = some 0 :=
    rs_at_zero_loss (by rwa [rollingMean_length, gains_length]) hloss
  refine ⟨h1, ?_⟩
  rw [calculate_rsi, if_neg (by omega), if_neg (by omega)]
  unfold rsiCore
  rw [List.getElem?_map, h1]
  norm_num

/-- Witness for C2 at `[1,2,3]`, window 2, position 2 (loss average 0). -/
theorem C2_witness :
    (calculate_rsi [1, 2, 3] 2)[2]? = some 0 := by
  have h := C2_rsi_zero_loss_amended [1, 2, 3] 2 2 (by norm_num) (by norm_num)
    (by norm_num [rollingMean, windowAt, losses, diffs, List.range_succ])
  exact h.2

/-- C3 counterexample: on the constant series `[5,5,5]` with window 2 (at
least window+1 points, all deltas zero) `calculate_rsi` returns `0`
everywhere, not the claimed neutral `50`: the all-zero loss average forces
`rs = 0` and the final `fillna(50)` never fires because `0` is not NaN. -/
theorem C3_counterexample :
    calculate_rsi [5, 5, 5] 2 = [0, 0, 0] ∧ (0 : ℚ) ≠ 50 := by
  refine ⟨?_, by norm_num⟩
  norm_num [calculate_rsi, rsiCore, rollingMean, windowAt, gains, losses,
    diffs, lossRepl, rsRaw, fillna0, List.range_succ]

/-- C3 (amended): every `calculate_rsi` output value lies in `[0,100]`, and
an input shorter than `window+1` yields the constant-50 neutral series; but
a constant input of length at least `window+1` yields the constant `0`
series, not 50. -/
theorem C3_rsi_range_amended :
    ∀ (data : List ℚ) (window : ℕ),
      (∀ x ∈ calculate_rsi data window, 0 ≤ x ∧ x ≤ 100)
      ∧ (data.length < window + 1 →
          calculate_rsi data window = List.replicate data.length 50)
      ∧ (∀ q : ℚ, (∀ x ∈ data, x = q) → 1 ≤ window →
          window + 1 ≤ data.length →
          ∀ x ∈ calculate_rsi data window, x = 0) := by
  intro data window
  refine ⟨?_, ?_, ?_⟩
  · intro x hx
    unfold calculate_rsi at hx
    split at hx
    · obtain ⟨-, -, rfl⟩ := List.mem_map.mp hx
      norm_num
    · split at hx
      · obtain ⟨-, -, rfl⟩ := List.mem_map.mp hx
        norm_num
      · unfold rsiCore at hx
        obtain ⟨r, hr, rfl⟩ := List.mem_map.mp hx
        exact rsi_val_bounds (rs_entries_nonneg
          (rollingMean_nonneg (gains_nonneg data))
          (rollingMean_nonneg (losses_nonneg data)) r hr)
  · intro hlen
    unfold calculate_rsi
    split
    · exact List.map_const' data 50
    · exact List.map_const' data 50
  · intro q hconst hw hlen x hx
    rw [calculate_rsi, if_neg (by omega), if_neg (by omega)] at hx
    unfold rsiCore at hx
    obtain ⟨r, hr, rfl⟩ := List.mem_map.mp hx
    have hr0 : r = 0 := by
      simp only [fillna0, List.mem_map] at hr
      obtain ⟨o, ho, rfl⟩ := hr
      obtain ⟨gv, lo, hgv, hlo, rfl⟩ := mem_zipWith ho
      simp only [lossRepl, List.mem_map] at hlo
      obtain ⟨lv, hlv, rfl⟩ := hlo
      have hz : lv = 0 :=
        rollingMean_zero (losses_eq_zero hconst) lv hlv
      simp [hz]
    rw [hr0]
    norm_num

/-- Witness for C3: the neutral short-input branch on `[1,2]` (window 14)
and a value of the all-in-range conjunct. -/
theorem C3_witness :
    ((0 : ℚ) ≤ 50 ∧ (50 : ℚ) ≤ 100)
    ∧ calculate_rsi [1, 2] 14 = List.replicate 2 50 := by
  have h := C3_rsi_range_amended [1, 2] 14
  have hm : (50 : ℚ) ∈ calculate_rsi [1, 2] 14 := by
    norm_num [calculate_rsi]
  exact ⟨h.1 50 hm, h.2.1 (by norm_num)⟩

/-- C4 counterexample: `calculate_sma [1,2,3] 20` (input of length ≥ 2,
shorter than the window) returns a value-less series, not the claimed
partial-window means (position 0 would be `1`); and for window 1 a
single-point input yields `[some 5]`, not the claimed empty series — the
source's guard is `len(data) < window`, not a two-point minimum. -/
theorem C4_counterexample :
    calculate_sma [1, 2, 3] 20 = [none, none, none]
    ∧ (none : Option ℚ) ≠ some 1
    ∧ calculate_sma [5] 1 = [some 5]
    ∧ ([some (5 : ℚ)] : List (Option ℚ)) ≠ [] := by
  refine ⟨by norm_num [calculate_sma], by simp, ?_, by simp⟩
  norm_num [calculate_sma, rollingMean, windowAt, List.range_succ]

/-- C4 (amended): `calculate_sma` always returns a series of the input's
length and never raises; when `window ≥ 1` and the input has at least
`window` points, the value at each of the first `window-1` positions is the
mean of all points so far and at every later position the mean of the
trailing `window` points; when the input is shorter than the window the
series is value-less (all missing) rather than holding partial means. -/
theorem C4_sma_amended :
    ∀ (data : List ℚ) (window : ℕ),
      (calculate_sma data window).length = data.length
      ∧ (1 ≤ window → window ≤ data.length →
          (∀ i, i < data.length → i + 1 ≤ window →
            (calculate_sma data window)[i]?
              = some (some ((data.take (i + 1)).sum / ((i + 1 : ℕ) : ℚ))))
          ∧ (∀ i, i < data.length → window ≤ i + 1 →
            (calculate_sma data window)[i]?
              = some (some (((data.drop (i + 1 - window)).take window).sum
                  / ((window : ℕ) : ℚ)))))
      ∧ (data.length < window → ∀ x ∈ calculate_sma data window, x = none) := by
  intro data window
  refine ⟨?_, fun hw hlen => ⟨?_, ?_⟩, ?_⟩
  · unfold calculate_sma
    split
    · simp
    · split
      · simp
      · simp [rollingMean_length]
  · intro i hi hpart
    rw [calculate_sma, if_neg (by omega), if_neg (by omega)]
    rw [rollingMean, List.getElem?_map, List.getElem?_map,
      List.getElem?_range (by simpa using hi)]
    have hmin : min (i + 1) window = i + 1 := min_eq_left hpart
    simp only [Option.map_some', windowAt, hmin, Nat.sub_self, List.drop_zero]
  · intro i hi hfull
    rw [calculate_sma, if_neg (by omega), if_neg (by omega)]
    rw [rollingMean, List.getElem?_map, List.getElem?_map,
      List.getElem?_range (by simpa using hi)]
    have hmin : min (i + 1) window = window := min_eq_right hfull
    simp only [Option.map_some', windowAt, hmin, List.drop_take]
    rw [Nat.sub_sub_self hfull]
  · intro hlen x hx
    unfold calculate_sma at hx
    split at hx
    · obtain ⟨-, -, rfl⟩ := List.mem_map.mp hx
      rfl
    · obtain ⟨-, -, rfl⟩ := List.mem_map.mp hx
      rfl

/-- Witness for C4 at `[1,2,3,4]` with window 3: length preserved, a
partial-window position and a full-window position. -/
theorem C4_witness :
    (calculate_sma [1, 2, 3, 4] 3).length = 4
    ∧ (calculate_sma [1, 2, 3, 4] 3)[1]? = some (some (3 / 2))
    ∧ (calculate_sma [1, 2, 3, 4] 3)[3]? = some (some 3) := by
  have h := C4_sma_amended [1, 2, 3, 4] 3
  refine ⟨by simpa using h.1, ?_, ?_⟩
  · have h2 := (h.2.1 (by norm_num) (by norm_num)).1 1 (by norm_num)
      (by norm_num)
    rw [h2]
    norm_num
  · have h3 := (h.2.1 (by norm_num) (by norm_num)).2 3 (by norm_num)
      (by norm_num)
    rw [h3]
    norm_num

/-- A `foldl max` is an element or the seed, bounds the seed, and bounds
every element. -/
theorem foldl_max_spec {α : Type} [LinearOrder α] :
    ∀ (l : List α) (a : α),
      (l.foldl max a = a ∨ l.foldl max a ∈ l)
      ∧ a ≤ l.foldl max a ∧ ∀ x ∈ l, x ≤ l.foldl max a := by
  intro l
  induction l with
  | nil => simp
  | cons b bs ih =>
      intro a
      obtain ⟨hmem, hle, hall⟩ := ih (max a b)
      simp only [List.foldl_cons]
      refine ⟨?_, le_trans (le_max_left a b) hle, ?_⟩
      · rcases hmem with h | h
        · rcases max_choice a b with hm | hm
          · exact Or.inl (h.trans hm)
          · exact Or.inr (by rw [h, hm]; exact List.mem_cons_self _ _)
        · exact Or.inr (List.mem_cons_of_mem _ h)
      · intro x hx
        rcases List.mem_cons.mp hx with rfl | hxm
        · exact le_trans (le_max_right a x) hle
        · exact hall x hxm

/-- Dual of `foldl_max_spec` for `min`. -/
theorem foldl_min_spec {α : Type} [LinearOrder α] :
    ∀ (l : List α) (a : α),
      (l.foldl min a = a ∨ l.foldl min a ∈ l)
      ∧ l.foldl min a ≤ a ∧ ∀ x ∈ l, l.foldl min a ≤ x := by
  intro l
  induction l with
  | nil => simp
  | cons b bs ih =>
      intro a
      obtain ⟨hmem, hle, hall⟩ := ih (min a b)
      simp only [List.foldl_cons]
      refine ⟨?_, le_trans hle (min_le_left a b), ?_⟩
      · rcases hmem with h | h
        · rcases min_choice a b with hm | hm
          · exact Or.inl (h.trans hm)
          · exact Or.inr (by rw [h, hm]; exact List.mem_cons_self _ _)
        · exact Or.inr (List.mem_cons_of_mem _ h)
      · intro x hx
        rcases List.mem_cons.mp hx with rfl | hxm
        · exact le_trans hle (min_le_right a x)
        · exact hall x hxm

/-- Every bucket width is positive. -/
theorem bucketMs_pos (days : ℕ) : 0 < bucketMs days := by
  unfold bucketMs
  split
  · norm_num
  · split <;> norm_num

/-- The bars' bucket index list holds exactly the buckets with at least one
price sample. -/
theorem mem_priceBuckets {W : ℕ} {ps : List (ℕ × ℚ)} {b : ℕ} :
    b ∈ priceBuckets W ps ↔ ∃ p ∈ ps, p.1 / W = b := by
  simp only [priceBuckets, List.mem_filter, List.mem_range,
    List.any_eq_true, beq_iff_eq]
  constructor
  · rintro ⟨-, h⟩
    exact h
  · rintro ⟨p, hp, rfl⟩
    refine ⟨?_, p, hp, rfl⟩
    have := (foldl_max_spec (ps.map (fun p => p.1 / W)) 0).2.2 (p.1 / W)
      (List.mem_map_of_mem _ hp)
    simp only [maxBucket]
    omega

/-- The bucket index list is strictly ascending. -/
theorem priceBuckets_sorted (W : ℕ) (ps : List (ℕ × ℚ)) :
    (priceBuckets W ps).Pairwise (· < ·) :=
  (List.pairwise_lt_range _).filter _

/-- C7 counterexample: with 1-hour buckets, prices in buckets 0 and 2 but a
single volume sample in bucket 0, the bar for bucket 2 carries an absent
volume (`None`/NaN from pandas index alignment), not the claimed sum of its
(zero) volume samples, which would be `0`. -/
theorem C7_counterexample :
    resampleBars [(0, 1), (7200000, 2)] (some [(0, 5)]) 5
      = [{ ts := 0, opn := 1, high := 1, low := 1, close := 1,
           volume := some 5 },
         { ts := 7200000, opn := 2, high := 2, low := 2, close := 2,
           volume := none }]
    ∧ ((([(0, (5 : ℚ))].filter
          (fun w => w.1 / 3600000 == 2)).map Prod.snd)).sum = 0
    ∧ (none : Option ℚ) ≠ some 0 := by
  refine ⟨?_, by norm_num, by simp⟩
  norm_num [resampleBars, priceBuckets, maxBucket, bucketMs, mkBar,
    volumeFor, qmaxD, qminD, List.range_succ, List.filter_cons]

/-- C7 (amended): the resampler uses 1-hour buckets for `days ≤ 7`, 4-hour
for `7 < days ≤ 30`, 1-day beyond; output bars are strictly ascending in
timestamp (hence no duplicates); the bars are exactly the buckets holding at
least one price sample, and within each such bucket open/close are the
first/last price in series order (the upstream series is time-ordered, so
this is chronological order) and high/low the max/min; a bucket's volume is
the sum of its volume samples whenever the bucket lies within the volume
series' bucket span — in particular whenever it holds at least one volume
sample — while a bucket outside that span, or with no volume data at all,
carries an absent volume rather than a zero sum. -/
theorem C7_resample_amended :
    ∀ (ps : List (ℕ × ℚ)) (vs : Option (List (ℕ × ℚ))) (days : ℕ),
      ((days ≤ 7 → bucketMs days = 3600000)
        ∧ (7 < days → days ≤ 30 → bucketMs days = 14400000)
        ∧ (30 < days → bucketMs days = 86400000))
      ∧ (resampleBars ps vs days).Pairwise (fun a b => a.ts < b.ts)
      ∧ (∀ b : ℕ, (∃ p ∈ ps, p.1 / bucketMs days = b) →
          mkBar (bucketMs days) ps vs b ∈ resampleBars ps vs days)
      ∧ (∀ bar ∈ resampleBars ps vs days, ∃ b : ℕ,
          (∃ p ∈ ps, p.1 / bucketMs days = b)
          ∧ bar = mkBar (bucketMs days) ps vs b)
      ∧ (∀ b : ℕ, ∀ q : ℚ, ∀ qs : List ℚ,
          (ps.filter (fun p => p.1 / bucketMs days == b)).map Prod.snd
            = q :: qs →
          (mkBar (bucketMs days) ps vs b).ts = b * bucketMs days
          ∧ (mkBar (bucketMs days) ps vs b).opn = q
          ∧ (mkBar (bucketMs days) ps vs b).close
              = (q :: qs).getLast (by simp)
          ∧ (mkBar (bucketMs days) ps vs b).high ∈ q :: qs
          ∧ (∀ y ∈ q :: qs, y ≤ (mkBar (bucketMs days) ps vs b).high)
          ∧ (mkBar (bucketMs days) ps vs b).low ∈ q :: qs
          ∧ (∀ y ∈ q :: qs, (mkBar (bucketMs days) ps vs b).low ≤ y)
          ∧ (mkBar (bucketMs days) ps vs b).volume
              = volumeFor (bucketMs days) vs b)
      ∧ (vs = none → ∀ b, volumeFor (bucketMs days) vs b = none)
      ∧ (∀ vlist, vs = some vlist → ∀ b : ℕ,
          ((∃ w₁ ∈ vlist, w₁.1 / bucketMs days ≤ b) →
           (∃ w₂ ∈ vlist, b ≤ w₂.1 / bucketMs days) →
            volumeFor (bucketMs days) vs b
              = some (((vlist.filter
                  (fun w => w.1 / bucketMs days == b)).map Prod.snd).sum))
          ∧ (((∀ w ∈ vlist, w.1 / bucketMs days < b)
              ∨ (∀ w ∈ vlist, b < w.1 / bucketMs days)) →
              vlist = [] ∨ volumeFor (bucketMs days) vs b = none)) := by
  intro ps vs days
  refine ⟨⟨?_, ?_, ?_⟩, ?_, ?_, ?_, ?_, ?_, ?_⟩
  · intro h
    rw [bucketMs, if_pos h]
  · intro h1 h2
    rw [bucketMs, if_neg (by omega), if_pos h2]
  · intro h
    rw [bucketMs, if_neg (by omega), if_neg (by omega)]
  · unfold resampleBars
    refine List.pairwise_map.mpr ((priceBuckets_sorted _ _).imp ?_)
    intro a b hab
    simpa [mkBar] using (Nat.mul_lt_mul_right (bucketMs_pos days)).mpr hab
  · intro b hb
    exact List.mem_map_of_mem _ (mem_priceBuckets.mpr hb)
  · intro bar hbar
    obtain ⟨b, hb, rfl⟩ := List.mem_map.mp hbar
    exact ⟨b, mem_priceBuckets.mp hb, rfl⟩
  · intro b q qs hfilter
    refine ⟨rfl, ?_, ?_, ?_, ?_, ?_, ?_, rfl⟩
    · simp [mkBar, hfilter]
    · simp only [mkBar, hfilter]
      rw [List.getLastD_eq_getLast?, List.getLast?_eq_getLast _ (by simp)]
      rfl
    · simp only [mkBar, hfilter, qmaxD]
      rcases (foldl_max_spec qs q).1 with h | h
      · rw [h]
        exact List.mem_cons_self _ _
      · exact List.mem_cons_of_mem _ h
    · intro y hy
      simp only [mkBar, hfilter, qmaxD]
      rcases List.mem_cons.mp hy with rfl | hym
      · exact (foldl_max_spec qs y).2.1
      · exact (foldl_max_spec qs q).2.2 y hym
    · simp only [mkBar, hfilter, qminD]
      rcases (foldl_min_spec qs q).1 with h | h
      · rw [h]
        exact List.mem_cons_self _ _
      · exact List.mem_cons_of_mem _ h
    · intro y hy
      simp only [mkBar, hfilter, qminD]
      rcases List.mem_cons.mp hy with rfl | hym
      · exact (foldl_min_spec qs y).2.1
      · exact (foldl_min_spec qs q).2.2 y hym
  · rintro rfl b
    rfl
  · rintro vlist rfl b
    constructor
    · rintro ⟨w₁, hw₁, hle₁⟩ ⟨w₂, hw₂, hle₂⟩
      rcases vlist with - | ⟨v, vt⟩
      · simp at hw₁
      · rw [volumeFor, if_pos]
        constructor
        · calc (((v :: vt).map (fun p => p.1 / bucketMs days)).foldl min
                (v.1 / bucketMs days))
              ≤ w₁.1 / bucketMs days :=
                (foldl_min_spec _ _).2.2 _ (List.mem_map_of_mem _ hw₁)
          _ ≤ b := hle₁
        · calc b ≤ w₂.1 / bucketMs days := hle₂
          _ ≤ (((v :: vt).map (fun p => p.1 / bucketMs days)).foldl max
                (v.1 / bucketMs days)) :=
                (foldl_max_spec _ _).2.2 _ (List.mem_map_of_mem _ hw₂)
    · intro hout
      rcases vlist with - | ⟨v, vt⟩
      · exact Or.inl rfl
      · refine Or.inr ?_
        rw [volumeFor, if_neg]
        rintro ⟨hmin, hmax⟩
        rcases hout with hout | hout
        · -- every volume bucket is below b, yet max ≥ b
          rcases (foldl_max_spec ((v :: vt).map (fun p => p.1 / bucketMs days))
              (v.1 / bucketMs days)).1 with h | h
          · have := hout v (List.mem_cons_self _ _)
            omega
          · obtain ⟨w, hw, hwb⟩ := List.mem_map.mp h
            have := hout w hw
            omega
        · rcases (foldl_min_spec ((v :: vt).map (fun p => p.1 / bucketMs days))
              (v.1 / bucketMs days)).1 with h | h
          · have := hout v (List.mem_cons_self _ _)
            omega
          · obtain ⟨w, hw, hwb⟩ := List.mem_map.mp h
            have := hout w hw
            omega

/-- Witness for C7: the policy thresholds at 5/20/60 days, and bucket 0 of
the counterexample input is a bar whose volume is the sum of its single
volume sample. -/
theorem C7_witness :
    bucketMs 5 = 3600000 ∧ bucketMs 20 = 14400000 ∧ bucketMs 60 = 86400000
    ∧ mkBar 3600000 [(0, 1), (7200000, 2)] (some [(0, 5)]) 0
        ∈ resampleBars [(0, 1), (7200000, 2)] (some [(0, 5)]) 5
    ∧ volumeFor 3600000 (some [(0, 5)]) 0
        = some (((([(0, (5 : ℚ))]).filter
            (fun w => w.1 / 3600000 == 0)).map Prod.snd).sum) := by
  have h := C7_resample_amended [(0, 1), (7200000, 2)] (some [(0, 5)]) 5
  have hpol := h.1
  have hW : bucketMs 5 = 3600000 := hpol.1 (by norm_num)
  refine ⟨hW, (C7_resample_amended [] none 20).1.2.1 (by norm_num) (by norm_num),
    (C7_resample_amended [] none 60).1.2.2 (by norm_num), ?_, ?_⟩
  · have hmem := h.2.2.1 0 ⟨(0, 1), by simp, by norm_num [hW]⟩
    rwa [hW] at hmem
  · have hvol := (h.2.2.2.2.2.2 [(0, 5)] rfl 0).1
      ⟨(0, 5), by simp, by norm_num [hW]⟩ ⟨(0, 5), by simp, by norm_num [hW]⟩
    rwa [hW] at hvol

end CryptoVerde
